import Mathlib

/-!
Shallow embedding of `src/main.rs` of `project-uploader`, a linear deploy
pipeline: load or prompt a configuration, run a build command, zip the build
output directory, upload the zip, persist the configuration and update the
`.gitignore` file.

Text is modelled as `List Char` (`Str`).  External effects are modelled by
oracles carried in a `World` record: the persisted config file, the stdin
lines, the build command's exit status, the project root's file tree, the
HTTP response and the result of deleting the zip file.  The run of `main` is
a pure function from a `World` to an event trace plus an outcome; `none`
marks divergence of the interactive prompt loop.
-/

/-- Text, as a list of characters (Rust `String` / `&str`). -/
abbrev Str := List Char

/-! ## Configuration (struct `Config`, `main.rs` lines 11-38) -/

/-- `struct Config` of `main.rs`: four optional string fields. -/
structure Config where
  build_command : Option Str
  directory : Option Str
  domain : Option Str
  auth : Option Str
deriving DecidableEq

/-- `Config::default()` (`main.rs` lines 20-27). -/
def Config.default : Config :=
  { build_command := some "npm run build".data
    directory := some "build".data
    domain := none
    auth := none }

/-! ## Interactive input (`read_from_stdin`, `main.rs` lines 111-131)

The Rust loop appends each stdin line (plus the `'\n'` kept by `read_line`)
to a shared buffer, trims it, and exits with the trimmed text when nonempty,
or with the default when the trim is empty and a default exists.  The model
recurses over the remaining stdin lines; at end of input `read_line` keeps
returning an unchanged buffer, so an empty trim with no default loops
forever, modelled by `none`.  The result pairs the Rust return value with
the unconsumed stdin lines. -/

/-- Rust `str::trim`: drop whitespace from both ends. -/
def rustTrim (s : Str) : Str :=
  ((s.dropWhile Char.isWhitespace).reverse.dropWhile Char.isWhitespace).reverse

/-- Model of `read_from_stdin` (arguments: remaining stdin lines, the
accumulated buffer, the default).  `none` = the loop never exits. -/
def read_from_stdin : List Str → Str → Option Str → Option (Option Str × List Str)
  | [], buffer, some d =>
    if rustTrim buffer = [] then some (some d, [])
    else some (some (rustTrim buffer), [])
  | [], buffer, none =>
    if rustTrim buffer = [] then none
    else some (some (rustTrim buffer), [])
  | l :: ls, buffer, some d =>
    if rustTrim (buffer ++ l ++ ['\n']) = [] then some (some d, ls)
    else some (some (rustTrim (buffer ++ l ++ ['\n'])), ls)
  | l :: ls, buffer, none =>
    if rustTrim (buffer ++ l ++ ['\n']) = [] then read_from_stdin ls (buffer ++ l ++ ['\n']) none
    else some (some (rustTrim (buffer ++ l ++ ['\n'])), ls)

/-! ## Domain normalization (`main.rs` lines 71-75) -/

/-- The domain rewrite applied to a present domain string: prepend
`https://` unless the string already starts with `http`. -/
def normalizeDomainStr (d : Str) : Str :=
  if "http".data.isPrefixOf d then d else "https://".data ++ d

/-- `main.rs` lines 71-75: rewrite `config.domain` when it is set. -/
def normalize_domain : Option Str → Option Str
  | none => none
  | some d => some (normalizeDomainStr d)

/-! ## The configure phase (`main.rs` lines 44-79) -/

/-- One `if field.is_none() || is_default { field = read_from_stdin(...) }`
step; when the condition is false the field and the stdin are untouched. -/
def promptIf (cond : Bool) (stdin : List Str) (field : Option Str) :
    Option (Option Str × List Str) :=
  if cond then read_from_stdin stdin [] field else some (field, stdin)

/-- The four prompts of `main` in source order (directory, build command,
domain, auth) with the domain rewrite between the last two.  `none` = a
prompt loop never exits. -/
def configureFrom (c : Config) (is_default : Bool) (stdin : List Str) :
    Option Config :=
  (promptIf (c.directory.isNone || is_default) stdin c.directory).bind fun p1 =>
    (promptIf (c.build_command.isNone || is_default) p1.2 c.build_command).bind fun p2 =>
      (promptIf (c.domain.isNone || is_default) p2.2 c.domain).bind fun p3 =>
        (promptIf (c.auth.isNone || is_default) p3.2 c.auth).bind fun p4 =>
          some { build_command := p2.1, directory := p1.1,
                 domain := normalize_domain p3.1, auth := p4.1 }

/-- Loading the config file (`main.rs` lines 44-56) and running the prompts.
The oracle: `none` = no `.uploader` file, `some (.error _)` = the file exists
but `serde_json` fails (the Rust code panics), `some (.ok c)` = it parses to
`c`.  The result: `none` = divergence, `some (.error m)` = panic with message
`m`, `some (.ok cfg)` = the configured record. -/
def configure : Option (Except Str Config) → List Str → Option (Except Str Config)
  | some (Except.error _), _ => some (Except.error "FAILED TO DESERIALIZE CONFIG FILE".data)
  | some (Except.ok c), stdin => (configureFrom c false stdin).map Except.ok
  | none, stdin => (configureFrom Config.default true stdin).map Except.ok

/-! ## Events and oracles -/

/-- The HTTP response oracle for the upload POST. -/
inductive HttpResp where
  | status (code : Nat)
  | transportErr (msg : Str)
deriving DecidableEq

/-- `reqwest::StatusCode::is_success`: 200 ≤ code ≤ 299. -/
def isSuccessCode (c : Nat) : Bool := 200 ≤ c && c < 300

/-! ## The file tree and the Archiver (`zip_output`, `main.rs` lines 172-224) -/

/-- A filesystem node: a regular file with its byte content, or a directory
with its children in traversal order. -/
inductive FsTree where
  | file (name : Str) (content : Str)
  | dir (name : Str) (children : List FsTree)

/-- The entry name of a node. -/
def FsTree.name : FsTree → Str
  | .file n _ => n
  | .dir n _ => n

/-- One item yielded by the `walkdir` iterator: a file or directory entry
(with its path relative to the project root, as components), or an error. -/
inductive WalkItem where
  | okFile (path : List Str) (content : Str)
  | okDir (path : List Str)
  | err (msg : Str)
deriving DecidableEq

mutual

/-- `WalkDir::new(p)` over the tree rooted at path `p` (components relative
to the project root): the root first, then each child subtree in order. -/
def walkItems (p : List Str) : FsTree → List WalkItem
  | .file _ c => [WalkItem.okFile p c]
  | .dir _ ch => WalkItem.okDir p :: walkForest p ch

/-- The walk of a list of sibling subtrees below parent path `p`. -/
def walkForest (p : List Str) : List FsTree → List WalkItem
  | [] => []
  | t :: ts => walkItems (p ++ [t.name]) t ++ walkForest p ts

end

/-- Joining path components with `'/'`, the display of the stripped path on
a Unix host (`name.to_string_lossy()` at `main.rs` line 202). -/
def renderPath : List Str → Str
  | [] => []
  | [x] => x
  | x :: y :: ys => x ++ '/' :: renderPath (y :: ys)

/-- `.replace("\\", "/")` at `main.rs` line 202: every backslash character
becomes a forward slash. -/
def replaceBS (s : Str) : Str := s.map fun c => if c = '\\' then '/' else c

/-- The archive entry name computed at `main.rs` lines 202-206 from the
root-relative path components: render, replace backslashes, and if the
result starts with `dir ++ "/"` remove that first occurrence once
(`replacen(&dir_with_slash, "", 1)`). -/
def entryNameC (dir : Str) (comps : List Str) : Str :=
  if (dir ++ ['/']).isPrefixOf (replaceBS (renderPath comps)) then
    (replaceBS (renderPath comps)).drop (dir ++ ['/']).length
  else replaceBS (renderPath comps)

/-- The zip-writing loop (`main.rs` lines 195-218) over the walk items:
errors are dropped by `filter_map(|e| e.ok())`, directory entries fail the
`path.is_file()` test, and each file yields one entry with the computed
name.  The file's bytes are written by one unchecked `zip.write(&buffer)`
call (line 214, an `io::Write::write` whose returned count is discarded, not
`write_all`), so the code only guarantees that some prefix of the buffer is
persisted; `zipFromWalkW` below models that count with an oracle.  This
definition is the full-write instance (the count equals the buffer length),
used for the entry-path and error-handling properties, which do not depend
on the count; `zipFromWalkW_full` relates the two. -/
def zipFromWalk (dir : Str) (items : List WalkItem) : List (Str × Str) :=
  items.filterMap fun it =>
    match it with
    | WalkItem.okFile comps c => some (entryNameC dir comps, c)
    | _ => none

/-- The zip-writing loop with the write count modelled: `wr comps c` is the
count returned by the single `zip.write(&buffer)` call for the file at path
`comps` with bytes `c` (the `io::Write` contract allows any count up to the
buffer length, and the source discards it), so the entry keeps the consumed
prefix `c.take (wr comps c)` of the file's bytes. -/
def zipFromWalkW (dir : Str) (wr : List Str → Str → Nat) (items : List WalkItem) :
    List (Str × Str) :=
  items.filterMap fun it =>
    match it with
    | WalkItem.okFile comps c => some (entryNameC dir comps, c.take (wr comps c))
    | _ => none

/-- Whether a walk item is not an error. -/
def WalkItem.isOk : WalkItem → Bool
  | .err _ => false
  | _ => true

/-- The file items of a walk, with their paths and contents. -/
def filesOfWalk (items : List WalkItem) : List (List Str × Str) :=
  items.filterMap fun it =>
    match it with
    | WalkItem.okFile p c => some (p, c)
    | _ => none

/-- The entries written for the tree `t` found at `R/dir`: the walk starts
at path `[dir]` relative to the project root (full-write instance). -/
def zipEntries (dir : Str) (t : FsTree) : List (Str × Str) :=
  zipFromWalk dir (walkItems [dir] t)

/-- The entries written for the tree `t` found at `R/dir`, with the write
count of each `zip.write` call given by the oracle `wr`. -/
def zipEntriesW (dir : Str) (wr : List Str → Str → Nat) (t : FsTree) :
    List (Str × Str) :=
  zipFromWalkW dir wr (walkItems [dir] t)

/-- Lookup of the node named `d` among the project root's children
(`base_path.join(&dir)` followed by `path.exists()`). -/
def findChild (d : Str) : List FsTree → Option FsTree
  | [] => none
  | t :: ts => if t.name = d then some t else findChild d ts

/-- `zip_output` (`main.rs` lines 172-224): panic when the directory field
is unset (`expect("output not set")`), panic when `R/dir` does not exist,
else the list of written entries. -/
def zip_output : Option Str → List FsTree → Except Str (List (Str × Str))
  | none, _ => Except.error "output not set".data
  | some d, root =>
    match findChild d root with
    | none => Except.error "OUTPUT DIRECTORY DOES NOT EXIST".data
    | some t => Except.ok (zipEntries d t)

mutual

/-- The regular files of a subtree, with paths (as components) that include
the subtree's own name, in walk order. -/
def filesUnder : FsTree → List (List Str × Str)
  | .file n c => [([n], c)]
  | .dir n ch => (filesForest ch).map fun pc => (n :: pc.1, pc.2)

/-- The regular files of sibling subtrees, in order. -/
def filesForest : List FsTree → List (List Str × Str)
  | [] => []
  | t :: ts => filesUnder t ++ filesForest ts

end

/-- The regular files below a walk root, with paths relative to that root
(the root's own name excluded; the root itself, when a file, has path `[]`). -/
def filesUnderRoot : FsTree → List (List Str × Str)
  | .file _ c => [([], c)]
  | .dir _ ch => filesForest ch

/-! ## Well-formedness of file trees -/

/-- A sound filesystem name: nonempty, no path separator, no backslash. -/
def goodNameB (n : Str) : Bool := !n.isEmpty && !n.contains '/' && !n.contains '\\'

/-- No two siblings share a name. -/
def nodupNames : List FsTree → Bool
  | [] => true
  | t :: ts => !(ts.map FsTree.name).contains t.name && nodupNames ts

mutual

/-- Every name in the tree is sound. -/
def goodTree : FsTree → Bool
  | .file n _ => goodNameB n
  | .dir n ch => goodNameB n && goodForest ch

/-- Every name in each tree of the list is sound. -/
def goodForest : List FsTree → Bool
  | [] => true
  | t :: ts => goodTree t && goodForest ts

end

mutual

/-- In every directory of the tree, children carry distinct names. -/
def uniqTree : FsTree → Bool
  | .file _ _ => true
  | .dir _ ch => nodupNames ch && uniqForest ch

/-- `uniqTree` for every tree of the list. -/
def uniqForest : List FsTree → Bool
  | [] => true
  | t :: ts => uniqTree t && uniqForest ts

end

/-! ## Events, build, upload, gitignore, and the whole run -/

/-- The externally visible actions of one run. -/
inductive Event where
  | ranBuild (cmd : Str)
  | createdZip (entries : List (Str × Str))
  | posted (domain : Str) (auth : Str)
  | reportedUploadSuccess
  | reportedUploadFailed (code : Nat)
  | reportedUploadError (msg : Str)
  | removedZip
  | reportedRemoveError (msg : Str)
  | wroteConfig (c : Config)
  | wroteGitignore (contents : Str)
deriving DecidableEq

/-- `run_build` (`main.rs` lines 133-170): no command means `Ok` with no
process run; otherwise the shell runs and the result is `Ok` exactly when
the status is success (exit code 0); a launch error is a failure. -/
def run_build : Option Str → Except Str Nat → List Event × Except Unit Unit
  | none, _ => ([], Except.ok ())
  | some cmd, cmdResult =>
    ([Event.ranBuild cmd],
      match cmdResult with
      | Except.ok code => if code = 0 then Except.ok () else Except.error ()
      | Except.error _ => Except.error ())

/-- The status line printed after the POST (`main.rs` lines 241-250). -/
def reportFor : HttpResp → Event
  | HttpResp.status c =>
    if isSuccessCode c then Event.reportedUploadSuccess else Event.reportedUploadFailed c
  | HttpResp.transportErr m => Event.reportedUploadError m

/-- `upload_zip` (`main.rs` lines 226-255): panic when domain is unset, when
the multipart form cannot be created, or when auth is unset; otherwise POST,
report the outcome, then always call `remove_file`, reporting (not
panicking) when the removal fails.  The boolean is whether the zip file is
still on disk afterward. -/
def upload_zip : Option Str → Option Str → Except Str Unit → HttpResp →
    Except Str Unit → Except Str (List Event × Bool)
  | none, _, _, _, _ => Except.error "DOMAIN NOT SET".data
  | some _, _, Except.error _, _, _ => Except.error "FROM COULD NOT BE CREATED".data
  | some _, none, Except.ok _, _, _ => Except.error "AUTH NOT SET".data
  | some d, some a, Except.ok _, resp, Except.ok _ =>
    Except.ok ([Event.posted d a, reportFor resp, Event.removedZip], false)
  | some d, some a, Except.ok _, resp, Except.error m =>
    Except.ok ([Event.posted d a, reportFor resp, Event.reportedRemoveError m], true)

/-! ## The gitignore step (`main.rs` lines 97-108) -/

/-- Split at `'\n'`, keeping every segment (the segment after a final
newline is the empty last segment). -/
def splitNl : Str → List Str
  | [] => [[]]
  | c :: cs =>
    if c = '\n' then [] :: splitNl cs
    else
      match splitNl cs with
      | [] => [[c]]
      | s :: rest => (c :: s) :: rest

/-- Drop one trailing carriage return. -/
def stripCR (l : Str) : Str := if l.getLast? = some '\r' then l.dropLast else l

/-- Rust `str::lines`: split at `'\n'`; a segment terminated by `'\n'` loses
one trailing `'\r'`; an empty final segment is not a line. -/
def rustLines (s : Str) : List Str :=
  let segs := splitNl s
  (segs.dropLast.map stripCR) ++
    (match segs.getLast? with
      | some [] => []
      | some l => [l]
      | none => [])

/-- `Vec::join("\n")`. -/
def joinLines : List Str → Str
  | [] => []
  | [x] => x
  | x :: y :: ys => x ++ '\n' :: joinLines (y :: ys)

/-- The persisted config file's name. -/
def uploaderName : Str := ".uploader".data

/-- The `.gitignore` rewrite (`main.rs` lines 99-108) on an existing file's
contents: when no line equals `.uploader`, push it and join with `'\n'`,
writing the result; otherwise no write (`none`). -/
def gitignore_step (g : Str) : Option Str :=
  if uploaderName ∈ rustLines g then none
  else some (joinLines (rustLines g ++ [uploaderName]))

/-! ## The whole run of `main` (`main.rs` lines 40-109) -/

/-- The oracles for one run: the config file, stdin, the build command's
result, the project root's children, the multipart form creation, the HTTP
response, the zip removal result, and the `.gitignore` contents if the file
exists. -/
structure World where
  configFile : Option (Except Str Config)
  stdin : List Str
  cmdResult : Except Str Nat
  rootFs : List FsTree
  formResult : Except Str Unit
  httpResp : HttpResp
  removeResult : Except Str Unit
  gitignore : Option Str

/-- The build command ran and did not succeed: a non-zero exit status or a
launch error. -/
def cmdFailed : Except Str Nat → Bool
  | Except.ok code => decide (code ≠ 0)
  | Except.error _ => true

/-- The upload attempt did not succeed: a non-2xx status or a transport
error. -/
def respFailed : HttpResp → Bool
  | HttpResp.status c => !isSuccessCode c
  | HttpResp.transportErr _ => true

/-- How the run ends. -/
inductive Outcome where
  | finished
  | buildAborted
  | panicked (msg : Str)
deriving DecidableEq

/-- One run's observable behavior. -/
structure RunResult where
  events : List Event
  outcome : Outcome
  zipOnDisk : Bool
deriving DecidableEq

/-- The `.gitignore` part of `main` (`main.rs` lines 97-108) as an effect on
the event list: no file or no missing line means no write. -/
def gitignorePhase (gi : Option Str) (evs : List Event) : List Event :=
  match gi with
  | none => evs
  | some g =>
    match gitignore_step g with
    | none => evs
    | some g2 => evs ++ [Event.wroteGitignore g2]

/-- `main` (`main.rs` lines 40-109): configure, run the build (early return
on failure), zip, upload, write the config file, update `.gitignore`.
`none` = a prompt loop diverges. -/
def mainRun (w : World) : Option RunResult :=
  match configure w.configFile w.stdin with
  | none => none
  | some (Except.error m) => some ⟨[], Outcome.panicked m, false⟩
  | some (Except.ok cfg) =>
    match (run_build cfg.build_command w.cmdResult).2 with
    | Except.error _ =>
      some ⟨(run_build cfg.build_command w.cmdResult).1, Outcome.buildAborted, false⟩
    | Except.ok _ =>
      match zip_output cfg.directory w.rootFs with
      | Except.error m =>
        some ⟨(run_build cfg.build_command w.cmdResult).1, Outcome.panicked m, false⟩
      | Except.ok entries =>
        match upload_zip cfg.domain cfg.auth w.formResult w.httpResp w.removeResult with
        | Except.error m =>
          some ⟨(run_build cfg.build_command w.cmdResult).1 ++ [Event.createdZip entries],
            Outcome.panicked m, true⟩
        | Except.ok (uev, zleft) =>
          some ⟨gitignorePhase w.gitignore
              ((run_build cfg.build_command w.cmdResult).1 ++ [Event.createdZip entries] ++
                uev ++ [Event.wroteConfig cfg]),
            Outcome.finished, zleft⟩

/-! # Helper lemmas -/

theorem read_from_stdin_isSome (ls : List Str) :
    ∀ (buf : Str) (d v : Option Str) (rest : List Str),
      read_from_stdin ls buf d = some (v, rest) → v.isSome = true := by
  induction ls with
  | nil =>
    intro buf d v rest h
    cases d with
    | some dv =>
      rw [read_from_stdin] at h
      split at h <;> (simp at h; rw [← h.1]; rfl)
    | none =>
      rw [read_from_stdin] at h
      split at h
      · simp at h
      · simp at h; rw [← h.1]; rfl
  | cons l ls ih =>
    intro buf d v rest h
    cases d with
    | some dv =>
      rw [read_from_stdin] at h
      split at h <;> (simp at h; rw [← h.1]; rfl)
    | none =>
      rw [read_from_stdin] at h
      split at h
      · exact ih _ _ _ _ h
      · simp at h; rw [← h.1]; rfl

theorem promptIf_isSome (isd : Bool) (stdin : List Str) (f v : Option Str)
    (rest : List Str) (h : promptIf (f.isNone || isd) stdin f = some (v, rest)) :
    v.isSome = true := by
  unfold promptIf at h
  by_cases hc : (f.isNone || isd) = true
  · rw [if_pos hc] at h
    exact read_from_stdin_isSome _ _ _ _ _ h
  · rw [if_neg hc] at h
    simp at h
    have hf : f.isNone = false := by
      cases hn : f.isNone with
      | false => rfl
      | true => exact absurd (by simp [hn]) hc
    rw [← h.1]
    simp [Option.isNone_eq_false_iff, Option.isSome_iff_ne_none] at hf ⊢
    exact hf

theorem normalize_domain_isSome (d : Option Str) :
    (normalize_domain d).isSome = d.isSome := by
  cases d <;> rfl

theorem configureFrom_fields (c : Config) (isd : Bool) (stdin : List Str)
    (cfg : Config) (h : configureFrom c isd stdin = some cfg) :
    cfg.directory.isSome = true ∧ cfg.build_command.isSome = true ∧
      cfg.domain.isSome = true ∧ cfg.auth.isSome = true := by
  unfold configureFrom at h
  simp only [Option.bind_eq_some, Option.some.injEq] at h
  obtain ⟨⟨dirv, s1⟩, h1, ⟨bcv, s2⟩, h2, ⟨domv, s3⟩, h3, ⟨authv, s4⟩, h4, hcfg⟩ := h
  rw [← hcfg]
  refine ⟨promptIf_isSome _ _ _ _ _ h1, promptIf_isSome _ _ _ _ _ h2, ?_,
    promptIf_isSome _ _ _ _ _ h4⟩
  show (normalize_domain domv).isSome = true
  rw [normalize_domain_isSome]
  exact promptIf_isSome _ _ _ _ _ h3

theorem configure_fields (cf : Option (Except Str Config)) (stdin : List Str)
    (cfg : Config) (h : configure cf stdin = some (Except.ok cfg)) :
    cfg.directory.isSome = true ∧ cfg.build_command.isSome = true ∧
      cfg.domain.isSome = true ∧ cfg.auth.isSome = true := by
  match cf with
  | some (Except.error e) =>
    rw [configure] at h
    simp at h
  | some (Except.ok c) =>
    rw [configure] at h
    cases h2 : configureFrom c false stdin with
    | none => rw [h2] at h; simp at h
    | some cfg2 =>
      rw [h2] at h
      simp at h
      rw [← h]
      exact configureFrom_fields _ _ _ _ h2
  | none =>
    rw [configure] at h
    cases h2 : configureFrom Config.default true stdin with
    | none => rw [h2] at h; simp at h
    | some cfg2 =>
      rw [h2] at h
      simp at h
      rw [← h]
      exact configureFrom_fields _ _ _ _ h2

theorem configure_error (cf : Option (Except Str Config)) (stdin : List Str) (m : Str)
    (h : configure cf stdin = some (Except.error m)) :
    m = "FAILED TO DESERIALIZE CONFIG FILE".data := by
  match cf with
  | some (Except.error e) =>
    rw [configure] at h
    simp at h
    exact h.symm
  | some (Except.ok c) =>
    rw [configure] at h
    cases h2 : configureFrom c false stdin with
    | none => rw [h2] at h; simp at h
    | some cfg2 => rw [h2] at h; simp at h
  | none =>
    rw [configure] at h
    cases h2 : configureFrom Config.default true stdin with
    | none => rw [h2] at h; simp at h
    | some cfg2 => rw [h2] at h; simp at h

theorem zip_output_error_of_isSome (dir : Option Str) (root : List FsTree) (m : Str)
    (hd : dir.isSome = true) (h : zip_output dir root = Except.error m) :
    m = "OUTPUT DIRECTORY DOES NOT EXIST".data := by
  match dir with
  | none => simp at hd
  | some d =>
    rw [zip_output] at h
    cases hf : findChild d root with
    | none => rw [hf] at h; simp at h; exact h.symm
    | some t => rw [hf] at h; simp at h

theorem upload_zip_error_of_isSome (dom auth : Option Str) (form : Except Str Unit)
    (resp : HttpResp) (rem : Except Str Unit) (m : Str)
    (hd : dom.isSome = true) (ha : auth.isSome = true)
    (h : upload_zip dom auth form resp rem = Except.error m) :
    m = "FROM COULD NOT BE CREATED".data := by
  match dom, auth, form, rem with
  | none, _, _, _ => simp at hd
  | some d, _, Except.error e, _ =>
    rw [upload_zip] at h
    simp at h
    exact h.symm
  | some d, none, Except.ok u, _ => simp at ha
  | some d, some a, Except.ok u, Except.ok u2 => rw [upload_zip] at h; simp at h
  | some d, some a, Except.ok u, Except.error m2 => rw [upload_zip] at h; simp at h

theorem run_build_fail (cmd : Str) (res : Except Str Nat) (hfail : cmdFailed res = true) :
    run_build (some cmd) res = ([Event.ranBuild cmd], Except.error ()) := by
  cases res with
  | error e => rfl
  | ok code =>
    simp [cmdFailed] at hfail
    simp [run_build, hfail]

theorem run_build_events (bc : Option Str) (res : Except Str Nat) :
    (run_build bc res).1 = [] ∨ ∃ c, (run_build bc res).1 = [Event.ranBuild c] := by
  cases bc with
  | none => left; rfl
  | some cmd => right; exact ⟨cmd, rfl⟩

theorem posted_not_mem_run_build (bc : Option Str) (res : Except Str Nat) (d a : Str) :
    Event.posted d a ∉ (run_build bc res).1 := by
  cases bc with
  | none => simp [run_build]
  | some cmd => simp [run_build]

theorem upload_zip_ok_shape (dom auth : Option Str) (form : Except Str Unit)
    (resp : HttpResp) (rem : Except Str Unit) (uev : List Event) (z : Bool)
    (h : upload_zip dom auth form resp rem = Except.ok (uev, z)) :
    ∃ d a,
      dom = some d ∧ auth = some a ∧
        ((rem = Except.ok () ∧
            uev = [Event.posted d a, reportFor resp, Event.removedZip] ∧ z = false) ∨
          (∃ m, rem = Except.error m ∧
            uev = [Event.posted d a, reportFor resp, Event.reportedRemoveError m] ∧ z = true)) := by
  match dom, auth, form, rem with
  | none, _, _, _ => rw [upload_zip] at h; simp at h
  | some d, _, Except.error e, _ => rw [upload_zip] at h; simp at h
  | some d, none, Except.ok u, _ => rw [upload_zip] at h; simp at h
  | some d, some a, Except.ok u, Except.ok u2 =>
    rw [upload_zip] at h
    simp at h
    exact ⟨d, a, rfl, rfl, Or.inl ⟨rfl, h.1.symm, h.2⟩⟩
  | some d, some a, Except.ok u, Except.error m2 =>
    rw [upload_zip] at h
    simp at h
    exact ⟨d, a, rfl, rfl, Or.inr ⟨m2, rfl, h.1.symm, h.2⟩⟩

theorem reportFor_of_failed (resp : HttpResp) (hf : respFailed resp = true) :
    (∃ c, reportFor resp = Event.reportedUploadFailed c) ∨
      ∃ m, reportFor resp = Event.reportedUploadError m := by
  cases resp with
  | status c =>
    simp [respFailed] at hf
    left
    exact ⟨c, by simp [reportFor, hf]⟩
  | transportErr m => right; exact ⟨m, rfl⟩

theorem mainRun_panic_msgs (w : World) (r : RunResult) (h : mainRun w = some r)
    (m : Str) (hm : r.outcome = Outcome.panicked m) :
    m = "FAILED TO DESERIALIZE CONFIG FILE".data ∨
      m = "OUTPUT DIRECTORY DOES NOT EXIST".data ∨
      m = "FROM COULD NOT BE CREATED".data := by
  unfold mainRun at h
  split at h
  · exact absurd h (by simp)
  · next me heq =>
    simp only [Option.some.injEq] at h
    subst h
    simp at hm
    subst hm
    exact Or.inl (configure_error _ _ _ heq)
  · next cfg heq =>
    obtain ⟨hdir, hbc, hdom, hauth⟩ := configure_fields _ _ _ heq
    split at h
    · simp only [Option.some.injEq] at h
      subst h
      simp at hm
    · split at h
      · next mz hz =>
        simp only [Option.some.injEq] at h
        subst h
        simp at hm
        subst hm
        exact Or.inr (Or.inl (zip_output_error_of_isSome _ _ _ hdir hz))
      · split at h
        · next mu hu =>
          simp only [Option.some.injEq] at h
          subst h
          simp at hm
          subst hm
          exact Or.inr (Or.inr (upload_zip_error_of_isSome _ _ _ _ _ _ hdom hauth hu))
        · next uev zleft hu =>
          simp only [Option.some.injEq] at h
          subst h
          simp at hm

/-! # Claim theorems (first group) -/

/-- C10: the walk's `filter_map(|e| e.ok())` silently drops erroneous
entries: the archive written from any walk item list equals the archive
written from the list with the errors removed, the function is total (no
abort), and it reports nothing. -/
theorem c10_walk_errors_skipped (dir : Str) (items : List WalkItem) :
    zipFromWalk dir items = zipFromWalk dir (items.filter WalkItem.isOk) := by
  induction items with
  | nil => rfl
  | cons it ts ih =>
    cases it with
    | okFile p c => simpa [zipFromWalk, WalkItem.isOk, List.filter] using ih
    | okDir p => simpa [zipFromWalk, WalkItem.isOk, List.filter] using ih
    | err m => simpa [zipFromWalk, WalkItem.isOk, List.filter] using ih

/-- C4: whatever the response to the POST (2xx, non-2xx, or a transport
error), `upload_zip` then removes the zip file, so it is no longer on disk;
when the removal itself fails the error is reported and the function still
returns normally instead of panicking. -/
theorem c4_upload_always_removes_zip (d a : Str) (resp : HttpResp) :
    upload_zip (some d) (some a) (Except.ok ()) resp (Except.ok ()) =
        Except.ok ([Event.posted d a, reportFor resp, Event.removedZip], false)
      ∧ ∀ m : Str,
        upload_zip (some d) (some a) (Except.ok ()) resp (Except.error m) =
          Except.ok ([Event.posted d a, reportFor resp, Event.reportedRemoveError m], true) :=
  ⟨rfl, fun _ => rfl⟩

/-- C5: a configured domain string that does not start with `http` is
stored and used as `https://` plus the original; one that does start with
`http` is unchanged. -/
theorem c5_domain_normalization (d : Str) :
    ("http".data.isPrefixOf d = false → normalizeDomainStr d = "https://".data ++ d)
      ∧ ("http".data.isPrefixOf d = true → normalizeDomainStr d = d) := by
  constructor
  · intro h
    unfold normalizeDomainStr
    rw [h]
    rfl
  · intro h
    unfold normalizeDomainStr
    rw [h]
    rfl

/-- C5 witness: both branches at concrete domains. -/
theorem c5_witness :
    normalizeDomainStr "example.com".data = "https://example.com".data
      ∧ normalizeDomainStr "http://a.b".data = "http://a.b".data := by
  constructor
  · exact (c5_domain_normalization "example.com".data).1 (by decide)
  · exact (c5_domain_normalization "http://a.b".data).2 (by decide)

theorem mem_gitignorePhase (gi : Option Str) (evs : List Event) (x : Event)
    (hx : x ∈ evs) : x ∈ gitignorePhase gi evs := by
  cases gi with
  | none => exact hx
  | some g =>
    cases h2 : gitignore_step g with
    | none => simp [gitignorePhase, h2, hx]
    | some g2 => simp [gitignorePhase, h2, hx]

/-- C9: whenever `read_from_stdin` returns, its value is `some`; hence a
configure phase that terminates yields a record whose four fields are all
set, and no run of `main` can end in the `expect` panics for a missing
directory, domain, or auth token in `zip_output` and `upload_zip`. -/
theorem c9_stdin_always_some :
    (∀ (ls : List Str) (buf : Str) (d v : Option Str) (rest : List Str),
        read_from_stdin ls buf d = some (v, rest) → v.isSome = true)
      ∧ (∀ (cf : Option (Except Str Config)) (stdin : List Str) (cfg : Config),
          configure cf stdin = some (Except.ok cfg) →
            cfg.directory.isSome = true ∧ cfg.build_command.isSome = true ∧
              cfg.domain.isSome = true ∧ cfg.auth.isSome = true)
      ∧ (∀ (w : World) (r : RunResult), mainRun w = some r →
          r.outcome ≠ Outcome.panicked "output not set".data ∧
            r.outcome ≠ Outcome.panicked "DOMAIN NOT SET".data ∧
            r.outcome ≠ Outcome.panicked "AUTH NOT SET".data) := by
  refine ⟨read_from_stdin_isSome, configure_fields, ?_⟩
  intro w r h
  refine ⟨?_, ?_, ?_⟩ <;> intro hm <;>
    rcases mainRun_panic_msgs w r h _ hm with h1 | h1 | h1 <;> revert h1 <;> decide

/-- C9 witness: the three parts at concrete inputs. -/
theorem c9_witness :
    (some "dist".data : Option Str).isSome = true
      ∧ ((Config.mk (some "make".data) (some "dist".data)
            (some "https://example.com".data) (some "tok".data)).directory.isSome = true
          ∧ (Config.mk (some "make".data) (some "dist".data)
              (some "https://example.com".data) (some "tok".data)).build_command.isSome = true
          ∧ (Config.mk (some "make".data) (some "dist".data)
              (some "https://example.com".data) (some "tok".data)).domain.isSome = true
          ∧ (Config.mk (some "make".data) (some "dist".data)
              (some "https://example.com".data) (some "tok".data)).auth.isSome = true)
      ∧ ((⟨[Event.ranBuild "make".data], Outcome.buildAborted, false⟩ : RunResult).outcome ≠
            Outcome.panicked "output not set".data
          ∧ (⟨[Event.ranBuild "make".data], Outcome.buildAborted, false⟩ : RunResult).outcome ≠
            Outcome.panicked "DOMAIN NOT SET".data
          ∧ (⟨[Event.ranBuild "make".data], Outcome.buildAborted, false⟩ : RunResult).outcome ≠
            Outcome.panicked "AUTH NOT SET".data) :=
  ⟨c9_stdin_always_some.1 ["dist".data] [] none (some "dist".data) [] rfl,
    c9_stdin_always_some.2.1 none
      ["dist".data, "make".data, "example.com".data, "tok".data]
      (Config.mk (some "make".data) (some "dist".data)
        (some "https://example.com".data) (some "tok".data)) rfl,
    c9_stdin_always_some.2.2
      ⟨none, ["dist".data, "make".data, "example.com".data, "tok".data], Except.ok 1, [],
        Except.ok (), HttpResp.status 200, Except.ok (), none⟩
      ⟨[Event.ranBuild "make".data], Outcome.buildAborted, false⟩ rfl⟩

/-- C3: in any run whose build command ran and failed (non-zero exit or
launch error), the whole trace is that single build event: the Archiver and
Uploader never run, the config file is not written and `.gitignore` is not
touched, and the run ends in the early build-failure return. -/
theorem c3_build_failure_stops_pipeline (w : World) (r : RunResult) (cmd : Str)
    (h : mainRun w = some r) (hran : Event.ranBuild cmd ∈ r.events)
    (hfail : cmdFailed w.cmdResult = true) :
    r.outcome = Outcome.buildAborted ∧ r.events = [Event.ranBuild cmd] := by
  unfold mainRun at h
  split at h
  · exact absurd h (by simp)
  · next me heq =>
    simp only [Option.some.injEq] at h
    subst h
    simp at hran
  · next cfg heq =>
    obtain ⟨hdir, hbc, hdom, hauth⟩ := configure_fields _ _ _ heq
    obtain ⟨cmd0, hcmd0⟩ := Option.isSome_iff_exists.mp hbc
    have hrb : run_build cfg.build_command w.cmdResult =
        ([Event.ranBuild cmd0], Except.error ()) := by
      rw [hcmd0]
      exact run_build_fail _ _ hfail
    rw [hrb] at h
    simp only [Option.some.injEq] at h
    subst h
    simp at hran
    subst hran
    exact ⟨rfl, rfl⟩

/-- C3 witness: a run with exit status 1 stops after the build event. -/
theorem c3_witness :
    (⟨[Event.ranBuild "make".data], Outcome.buildAborted, false⟩ : RunResult).outcome =
        Outcome.buildAborted
      ∧ (⟨[Event.ranBuild "make".data], Outcome.buildAborted, false⟩ : RunResult).events =
        [Event.ranBuild "make".data] :=
  c3_build_failure_stops_pipeline
    ⟨none, ["dist".data, "make".data, "example.com".data, "tok".data], Except.ok 1, [],
      Except.ok (), HttpResp.status 200, Except.ok (), none⟩
    ⟨[Event.ranBuild "make".data], Outcome.buildAborted, false⟩
    "make".data rfl (by decide) rfl

/-- C7: in any run that POSTed the archive and got a non-2xx status or a
transport error, the failure is reported, the run still removes the archive
(or reports the removal error), still reaches the config-write step, and
finishes instead of aborting. -/
theorem c7_upload_failure_nonfatal (w : World) (r : RunResult) (d a : Str)
    (h : mainRun w = some r) (hpost : Event.posted d a ∈ r.events)
    (hfail : respFailed w.httpResp = true) :
    r.outcome = Outcome.finished
      ∧ ((∃ c, Event.reportedUploadFailed c ∈ r.events) ∨
          (∃ m, Event.reportedUploadError m ∈ r.events))
      ∧ (w.removeResult = Except.ok () → Event.removedZip ∈ r.events)
      ∧ (∀ m, w.removeResult = Except.error m → Event.reportedRemoveError m ∈ r.events)
      ∧ ∃ cfg, Event.wroteConfig cfg ∈ r.events := by
  unfold mainRun at h
  split at h
  · exact absurd h (by simp)
  · next me heq =>
    simp only [Option.some.injEq] at h
    subst h
    simp at hpost
  · next cfg heq =>
    split at h
    · simp only [Option.some.injEq] at h
      subst h
      exact absurd hpost (posted_not_mem_run_build _ _ _ _)
    · split at h
      · next mz hz =>
        simp only [Option.some.injEq] at h
        subst h
        exact absurd hpost (posted_not_mem_run_build _ _ _ _)
      · split at h
        · next mu hu =>
          simp only [Option.some.injEq] at h
          subst h
          rw [List.mem_append] at hpost
          rcases hpost with hpost | hpost
          · exact absurd hpost (posted_not_mem_run_build _ _ _ _)
          · simp at hpost
        · next uev zleft hu =>
          simp only [Option.some.injEq] at h
          subst h
          obtain ⟨d0, a0, hdom0, hauth0, hshape⟩ := upload_zip_ok_shape _ _ _ _ _ _ _ hu
          refine ⟨rfl, ?_, ?_, ?_, ?_⟩
          · rcases reportFor_of_failed w.httpResp hfail with ⟨c, hc⟩ | ⟨m, hm⟩
            · left
              refine ⟨c, mem_gitignorePhase _ _ _ ?_⟩
              rcases hshape with ⟨_, huev, _⟩ | ⟨m2, _, huev, _⟩ <;> rw [huev, hc] <;> simp
            · right
              refine ⟨m, mem_gitignorePhase _ _ _ ?_⟩
              rcases hshape with ⟨_, huev, _⟩ | ⟨m2, _, huev, _⟩ <;> rw [huev, hm] <;> simp
          · intro hrem
            refine mem_gitignorePhase _ _ _ ?_
            rcases hshape with ⟨_, huev, _⟩ | ⟨m2, hre, huev, _⟩
            · rw [huev]; simp
            · rw [hrem] at hre; exact absurd hre (by simp)
          · intro m hrem
            refine mem_gitignorePhase _ _ _ ?_
            rcases hshape with ⟨hre, huev, _⟩ | ⟨m2, hre, huev, _⟩
            · rw [hrem] at hre; exact absurd hre (by simp)
            · rw [hrem] at hre
              simp at hre
              subst hre
              rw [huev]
              simp
          · exact ⟨cfg, mem_gitignorePhase _ _ _ (by simp)⟩

/-- C7 witness: a 500 response still removes the zip and writes the config. -/
theorem c7_witness :
    (⟨[Event.ranBuild "make".data,
        Event.createdZip [("i.html".data, "h".data)],
        Event.posted "https://example.com".data "tok".data,
        Event.reportedUploadFailed 500,
        Event.removedZip,
        Event.wroteConfig (Config.mk (some "make".data) (some "dist".data)
          (some "https://example.com".data) (some "tok".data))],
      Outcome.finished, false⟩ : RunResult).outcome = Outcome.finished
      ∧ ((∃ c, Event.reportedUploadFailed c ∈
            (⟨[Event.ranBuild "make".data,
                Event.createdZip [("i.html".data, "h".data)],
                Event.posted "https://example.com".data "tok".data,
                Event.reportedUploadFailed 500,
                Event.removedZip,
                Event.wroteConfig (Config.mk (some "make".data) (some "dist".data)
                  (some "https://example.com".data) (some "tok".data))],
              Outcome.finished, false⟩ : RunResult).events) ∨
          (∃ m, Event.reportedUploadError m ∈
            (⟨[Event.ranBuild "make".data,
                Event.createdZip [("i.html".data, "h".data)],
                Event.posted "https://example.com".data "tok".data,
                Event.reportedUploadFailed 500,
                Event.removedZip,
                Event.wroteConfig (Config.mk (some "make".data) (some "dist".data)
                  (some "https://example.com".data) (some "tok".data))],
              Outcome.finished, false⟩ : RunResult).events))
      ∧ ((Except.ok () : Except Str Unit) = Except.ok () → Event.removedZip ∈
          (⟨[Event.ranBuild "make".data,
              Event.createdZip [("i.html".data, "h".data)],
              Event.posted "https://example.com".data "tok".data,
              Event.reportedUploadFailed 500,
              Event.removedZip,
              Event.wroteConfig (Config.mk (some "make".data) (some "dist".data)
                (some "https://example.com".data) (some "tok".data))],
            Outcome.finished, false⟩ : RunResult).events)
      ∧ (∀ m, (Except.ok () : Except Str Unit) = Except.error m →
          Event.reportedRemoveError m ∈
            (⟨[Event.ranBuild "make".data,
                Event.createdZip [("i.html".data, "h".data)],
                Event.posted "https://example.com".data "tok".data,
                Event.reportedUploadFailed 500,
                Event.removedZip,
                Event.wroteConfig (Config.mk (some "make".data) (some "dist".data)
                  (some "https://example.com".data) (some "tok".data))],
              Outcome.finished, false⟩ : RunResult).events)
      ∧ ∃ cfg, Event.wroteConfig cfg ∈
          (⟨[Event.ranBuild "make".data,
              Event.createdZip [("i.html".data, "h".data)],
              Event.posted "https://example.com".data "tok".data,
              Event.reportedUploadFailed 500,
              Event.removedZip,
              Event.wroteConfig (Config.mk (some "make".data) (some "dist".data)
                (some "https://example.com".data) (some "tok".data))],
            Outcome.finished, false⟩ : RunResult).events :=
  c7_upload_failure_nonfatal
    ⟨none, ["dist".data, "make".data, "example.com".data, "tok".data], Except.ok 0,
      [FsTree.dir "dist".data [FsTree.file "i.html".data "h".data]],
      Except.ok (), HttpResp.status 500, Except.ok (), none⟩
    ⟨[Event.ranBuild "make".data,
      Event.createdZip [("i.html".data, "h".data)],
      Event.posted "https://example.com".data "tok".data,
      Event.reportedUploadFailed 500,
      Event.removedZip,
      Event.wroteConfig (Config.mk (some "make".data) (some "dist".data)
        (some "https://example.com".data) (some "tok".data))],
      Outcome.finished, false⟩
    "https://example.com".data "tok".data rfl (by decide) rfl

/-! # Archiver helper lemmas -/

theorem goodNameB_spec (n : Str) (h : goodNameB n = true) :
    n ≠ [] ∧ '/' ∉ n ∧ '\\' ∉ n := by
  simp [goodNameB, List.contains] at h
  exact ⟨h.1.1, h.1.2, h.2⟩

theorem replaceBS_eq_self (s : Str) (h : '\\' ∉ s) : replaceBS s = s := by
  unfold replaceBS
  induction s with
  | nil => rfl
  | cons c cs ih =>
    rw [List.mem_cons, not_or] at h
    rw [List.map_cons, if_neg (fun hc => h.1 hc.symm), ih h.2]

theorem renderPath_cons (x : Str) (ys : List Str) (h : ys ≠ []) :
    renderPath (x :: ys) = x ++ '/' :: renderPath ys := by
  cases ys with
  | nil => exact absurd rfl h
  | cons y ys => rfl

theorem mem_renderPath (c : Char) (ps : List Str) (h : c ∈ renderPath ps) :
    c = '/' ∨ ∃ p ∈ ps, c ∈ p := by
  match ps with
  | [] => simp [renderPath] at h
  | [x] => exact Or.inr ⟨x, by simp, h⟩
  | x :: y :: ys =>
    rw [renderPath] at h
    rw [List.mem_append] at h
    rcases h with h | h
    · exact Or.inr ⟨x, by simp, h⟩
    · rcases List.mem_cons.mp h with h | h
      · exact Or.inl h
      · rcases mem_renderPath c (y :: ys) h with h2 | ⟨p, hp, hcp⟩
        · exact Or.inl h2
        · exact Or.inr ⟨p, by simp [List.mem_cons.mp hp], hcp⟩

theorem no_bs_renderPath (ps : List Str) (h : ∀ p ∈ ps, '\\' ∉ p) :
    '\\' ∉ renderPath ps := by
  intro hc
  rcases mem_renderPath _ _ hc with h1 | ⟨p, hp, hcp⟩
  · exact absurd h1 (by decide)
  · exact absurd hcp (h p hp)

theorem isPrefixOf_append_cons (d r : Str) :
    (d ++ ['/']).isPrefixOf (d ++ '/' :: r) = true := by
  rw [List.isPrefixOf_iff_prefix]
  have he : d ++ '/' :: r = (d ++ ['/']) ++ r := by simp
  rw [he]
  exact List.prefix_append _ _

theorem not_isPrefixOf_self_slash (d : Str) :
    (d ++ ['/']).isPrefixOf d = false := by
  cases hb : (d ++ ['/']).isPrefixOf d with
  | false => rfl
  | true =>
    have := List.IsPrefix.length_le (List.isPrefixOf_iff_prefix.mp hb)
    simp at this

theorem entryNameC_strip (dir : Str) (rest : List Str) (hd : '\\' ∉ dir)
    (hrest : ∀ p ∈ rest, '\\' ∉ p) (hne : rest ≠ []) :
    entryNameC dir (dir :: rest) = renderPath rest := by
  have hbs : '\\' ∉ dir ++ '/' :: renderPath rest := by
    intro hc
    rcases List.mem_append.mp hc with h1 | h1
    · exact absurd h1 hd
    · rcases List.mem_cons.mp h1 with h2 | h2
      · exact absurd h2 (by decide)
      · exact absurd h2 (no_bs_renderPath _ hrest)
  unfold entryNameC
  rw [renderPath_cons _ _ hne, replaceBS_eq_self _ hbs, isPrefixOf_append_cons, if_pos rfl]
  have he : dir ++ '/' :: renderPath rest = (dir ++ ['/']) ++ renderPath rest := by simp
  rw [he, List.drop_left]

theorem entryNameC_rootfile (dir : Str) (hd : '\\' ∉ dir) :
    entryNameC dir [dir] = dir := by
  unfold entryNameC
  have h1 : renderPath [dir] = dir := rfl
  rw [h1, replaceBS_eq_self _ hd, not_isPrefixOf_self_slash]
  simp

theorem filesOfWalk_append (a b : List WalkItem) :
    filesOfWalk (a ++ b) = filesOfWalk a ++ filesOfWalk b := by
  unfold filesOfWalk
  exact List.filterMap_append _ _ _

theorem zipFromWalk_eq_map (dir : Str) (items : List WalkItem) :
    zipFromWalk dir items =
      (filesOfWalk items).map (fun pc => (entryNameC dir pc.1, pc.2)) := by
  induction items with
  | nil => rfl
  | cons it ts ih =>
    cases it with
    | okFile p c => simp [zipFromWalk, filesOfWalk, List.filterMap_cons] at ih ⊢; exact ih
    | okDir p => simp [zipFromWalk, filesOfWalk, List.filterMap_cons] at ih ⊢; exact ih
    | err m => simp [zipFromWalk, filesOfWalk, List.filterMap_cons] at ih ⊢; exact ih

mutual

theorem filesOfWalk_walkItems : ∀ (t : FsTree) (p : List Str),
    filesOfWalk (walkItems (p ++ [t.name]) t) =
      (filesUnder t).map (fun pc => (p ++ pc.1, pc.2))
  | FsTree.file n c, p => by
    simp [walkItems, filesOfWalk, filesUnder, FsTree.name, List.filterMap_cons]
  | FsTree.dir n ch, p => by
    have ih := filesOfWalk_walkForest ch (p ++ [n])
    simp only [walkItems, filesOfWalk, filesUnder, FsTree.name, List.filterMap_cons] at ih ⊢
    rw [ih, List.map_map]
    apply List.map_congr_left
    intro pc _
    simp

theorem filesOfWalk_walkForest : ∀ (ch : List FsTree) (p : List Str),
    filesOfWalk (walkForest p ch) =
      (filesForest ch).map (fun pc => (p ++ pc.1, pc.2))
  | [], p => by simp [walkForest, filesForest, filesOfWalk]
  | t :: ts, p => by
    have ih1 := filesOfWalk_walkItems t p
    have ih2 := filesOfWalk_walkForest ts p
    rw [walkForest, filesOfWalk_append, ih1, ih2, filesForest, List.map_append]

end

theorem filesOfWalk_walkItems_root (t : FsTree) (dir : Str) :
    filesOfWalk (walkItems [dir] t) =
      (filesUnderRoot t).map (fun pc => (dir :: pc.1, pc.2)) := by
  cases t with
  | file n c => simp [walkItems, filesOfWalk, filesUnderRoot, List.filterMap_cons]
  | dir n ch =>
    have h := filesOfWalk_walkForest ch [dir]
    simp only [walkItems, filesOfWalk, filesUnderRoot, List.filterMap_cons] at h ⊢
    rw [h]
    apply List.map_congr_left
    intro pc _
    simp

theorem zipEntries_eq (dir : Str) (t : FsTree) :
    zipEntries dir t =
      (filesUnderRoot t).map (fun pc => (entryNameC dir (dir :: pc.1), pc.2)) := by
  rw [zipEntries, zipFromWalk_eq_map, filesOfWalk_walkItems_root, List.map_map]
  rfl

theorem filesUnder_head (t : FsTree) (pc : List Str × Str) (h : pc ∈ filesUnder t) :
    ∃ r, pc.1 = t.name :: r := by
  cases t with
  | file n c =>
    rw [filesUnder] at h
    simp at h
    rw [h]
    exact ⟨[], rfl⟩
  | dir n ch =>
    rw [filesUnder] at h
    rw [List.mem_map] at h
    obtain ⟨pc2, _, hpc⟩ := h
    rw [← hpc]
    exact ⟨pc2.1, rfl⟩

theorem filesForest_head (ch : List FsTree) (pc : List Str × Str)
    (h : pc ∈ filesForest ch) : ∃ u ∈ ch, ∃ r, pc.1 = u.name :: r := by
  induction ch with
  | nil => rw [filesForest] at h; simp at h
  | cons t ts ih =>
    rw [filesForest, List.mem_append] at h
    rcases h with h | h
    · obtain ⟨r, hr⟩ := filesUnder_head t pc h
      exact ⟨t, by simp, r, hr⟩
    · obtain ⟨u, hu, r, hr⟩ := ih h
      exact ⟨u, by simp [hu], r, hr⟩

theorem filesForest_ne_nil_path (ch : List FsTree) (pc : List Str × Str)
    (h : pc ∈ filesForest ch) : pc.1 ≠ [] := by
  obtain ⟨u, _, r, hr⟩ := filesForest_head ch pc h
  rw [hr]
  simp

mutual

theorem filesUnder_good : ∀ (t : FsTree), goodTree t = true →
    ∀ pc ∈ filesUnder t, ∀ x ∈ pc.1, goodNameB x = true
  | FsTree.file n c, hg => by
    rw [goodTree] at hg
    intro pc hpc x hx
    rw [filesUnder] at hpc
    simp at hpc
    rw [hpc] at hx
    simp at hx
    rw [hx]
    exact hg
  | FsTree.dir n ch, hg => by
    rw [goodTree, Bool.and_eq_true] at hg
    intro pc hpc x hx
    rw [filesUnder, List.mem_map] at hpc
    obtain ⟨pc2, hpc2, hpc⟩ := hpc
    rw [← hpc] at hx
    simp only [List.mem_cons] at hx
    rcases hx with hx | hx
    · rw [hx]; exact hg.1
    · exact filesForest_good ch hg.2 pc2 hpc2 x hx

theorem filesForest_good : ∀ (ch : List FsTree), goodForest ch = true →
    ∀ pc ∈ filesForest ch, ∀ x ∈ pc.1, goodNameB x = true
  | [], _ => by
    intro pc hpc
    rw [filesForest] at hpc
    simp at hpc
  | t :: ts, hg => by
    rw [goodForest, Bool.and_eq_true] at hg
    intro pc hpc x hx
    rw [filesForest, List.mem_append] at hpc
    rcases hpc with hpc | hpc
    · exact filesUnder_good t hg.1 pc hpc x hx
    · exact filesForest_good ts hg.2 pc hpc x hx

end

mutual

theorem filesUnder_paths_nodup : ∀ (t : FsTree), uniqTree t = true →
    ((filesUnder t).map Prod.fst).Nodup
  | FsTree.file n c, _ => by
    rw [filesUnder]
    simp
  | FsTree.dir n ch, hu => by
    rw [uniqTree, Bool.and_eq_true] at hu
    rw [filesUnder, List.map_map]
    have hmm : (Prod.fst ∘ fun pc : List Str × Str => (n :: pc.1, pc.2)) =
        (fun l => n :: l) ∘ Prod.fst := rfl
    rw [hmm, ← List.map_map]
    apply List.Nodup.map
    · intro a b hab
      exact (List.cons.injEq _ _ _ _).mp hab |>.2
    · exact filesForest_paths_nodup ch hu.1 hu.2

theorem filesForest_paths_nodup : ∀ (ch : List FsTree), nodupNames ch = true →
    uniqForest ch = true → ((filesForest ch).map Prod.fst).Nodup
  | [], _, _ => by rw [filesForest]; simp
  | t :: ts, hnn, hu => by
    rw [nodupNames, Bool.and_eq_true] at hnn
    rw [uniqForest, Bool.and_eq_true] at hu
    rw [filesForest, List.map_append]
    apply List.Nodup.append
    · exact filesUnder_paths_nodup t hu.1
    · exact filesForest_paths_nodup ts hnn.2 hu.2
    · intro p hp1 hp2
      rw [List.mem_map] at hp1 hp2
      obtain ⟨pc1, hpc1, he1⟩ := hp1
      obtain ⟨pc2, hpc2, he2⟩ := hp2
      obtain ⟨r1, hr1⟩ := filesUnder_head t pc1 hpc1
      obtain ⟨u, hu2, r2, hr2⟩ := filesForest_head ts pc2 hpc2
      have hname : t.name = u.name := by
        have : p = t.name :: r1 := by rw [← he1, hr1]
        have h2 : p = u.name :: r2 := by rw [← he2, hr2]
        rw [this] at h2
        exact ((List.cons.injEq _ _ _ _).mp h2).1
      have : u.name ∈ ts.map FsTree.name := List.mem_map_of_mem _ hu2
      rw [← hname] at this
      have hcontains : (ts.map FsTree.name).contains t.name = true :=
        List.elem_iff.mpr this
      rw [hcontains] at hnn
      simp at hnn

end

theorem firstSlash (x : Str) : ∀ (y r s : Str), '/' ∉ x → '/' ∉ y →
    x ++ '/' :: r = y ++ '/' :: s → x = y ∧ r = s := by
  induction x with
  | nil =>
    intro y r s _ hy h
    cases y with
    | nil => simp at h; exact ⟨rfl, h⟩
    | cons d y2 =>
      simp at h
      rw [List.mem_cons] at hy
      exact absurd (Or.inl h.1) hy
  | cons c x2 ih =>
    intro y r s hx hy h
    cases y with
    | nil =>
      simp at h
      rw [List.mem_cons] at hx
      exact absurd (Or.inl h.1.symm) hx
    | cons d y2 =>
      simp only [List.cons_append, List.cons.injEq] at h
      rw [List.mem_cons] at hx hy
      obtain ⟨h1, h2⟩ :=
        ih y2 r s (fun hh => hx (Or.inr hh)) (fun hh => hy (Or.inr hh)) h.2
      exact ⟨by rw [h.1, h1], h2⟩

theorem renderPath_inj : ∀ (p q : List Str),
    (∀ x ∈ p, goodNameB x = true) → (∀ x ∈ q, goodNameB x = true) →
    renderPath p = renderPath q → p = q
  | [], [], _, _, _ => rfl
  | [], [y], _, hq, h => by
    have hy := goodNameB_spec y (hq y (by simp))
    rw [renderPath, renderPath] at h
    exact absurd h.symm hy.1
  | [], y :: y2 :: ys, _, hq, h => by
    have h0 : renderPath ([] : List Str) = [] := rfl
    rw [h0, renderPath_cons y (y2 :: ys) (by simp)] at h
    exact absurd h.symm (by simp)
  | [x], [], hp, _, h => by
    have hx := goodNameB_spec x (hp x (by simp))
    rw [renderPath, renderPath] at h
    exact absurd h hx.1
  | x :: x2 :: xs, [], hp, _, h => by
    have h0 : renderPath ([] : List Str) = [] := rfl
    rw [renderPath_cons x (x2 :: xs) (by simp), h0] at h
    exact absurd h (by simp)
  | [x], [y], _, _, h => by
    rw [renderPath, renderPath] at h
    rw [h]
  | [x], y :: y2 :: ys, hp, hq, h => by
    have hx := goodNameB_spec x (hp x (by simp))
    have hx1 : renderPath [x] = x := rfl
    rw [hx1, renderPath_cons y (y2 :: ys) (by simp)] at h
    have : '/' ∈ x := by
      rw [h]
      simp
    exact absurd this hx.2.1
  | x :: x2 :: xs, [y], hp, hq, h => by
    have hy := goodNameB_spec y (hq y (by simp))
    have hy1 : renderPath [y] = y := rfl
    rw [renderPath_cons x (x2 :: xs) (by simp), hy1] at h
    have : '/' ∈ y := by
      rw [← h]
      simp
    exact absurd this hy.2.1
  | x :: x2 :: xs, y :: y2 :: ys, hp, hq, h => by
    rw [renderPath_cons x (x2 :: xs) (by simp),
      renderPath_cons y (y2 :: ys) (by simp)] at h
    have hx := goodNameB_spec x (hp x (by simp))
    have hy := goodNameB_spec y (hq y (by simp))
    obtain ⟨h1, h2⟩ := firstSlash x y _ _ hx.2.1 hy.2.1 h
    have h3 := renderPath_inj (x2 :: xs) (y2 :: ys)
      (fun z hz => hp z (by simp [List.mem_cons.mp hz]))
      (fun z hz => hq z (by simp [List.mem_cons.mp hz])) h2
    rw [h1, h3]

theorem renderPath_pref_head (d : Str) (p : List Str) (hd : goodNameB d = true)
    (hp : ∀ x ∈ p, goodNameB x = true)
    (h : (d ++ ['/']).isPrefixOf (renderPath p) = true) :
    ∃ tl, p = d :: tl ∧ tl ≠ [] := by
  have hds := goodNameB_spec d hd
  match p with
  | [] =>
    rw [List.isPrefixOf_iff_prefix] at h
    have := List.IsPrefix.length_le h
    simp [renderPath] at this
  | [x] =>
    have hx := goodNameB_spec x (hp x (by simp))
    rw [List.isPrefixOf_iff_prefix] at h
    have hsub := List.IsPrefix.subset h
    have : '/' ∈ renderPath [x] := hsub (by simp)
    rw [renderPath] at this
    exact absurd this hx.2.1
  | x :: x2 :: xs =>
    have hx := goodNameB_spec x (hp x (by simp))
    rw [List.isPrefixOf_iff_prefix] at h
    obtain ⟨t, ht⟩ := h
    rw [renderPath_cons x (x2 :: xs) (by simp)] at ht
    have ht2 : d ++ '/' :: t = x ++ '/' :: renderPath (x2 :: xs) := by
      rw [← ht]
      simp
    obtain ⟨h1, _⟩ := firstSlash d x t _ hds.2.1 hx.2.1 ht2
    exact ⟨x2 :: xs, by rw [h1], by simp⟩

theorem zipEntries_dir_eq (dir nm : Str) (ch : List FsTree)
    (hdir : goodNameB dir = true) (hch : goodForest ch = true) :
    zipEntries dir (FsTree.dir nm ch) =
      (filesForest ch).map (fun pc => (renderPath pc.1, pc.2)) := by
  rw [zipEntries_eq]
  have h0 : filesUnderRoot (FsTree.dir nm ch) = filesForest ch := rfl
  rw [h0]
  apply List.map_congr_left
  intro pc hpc
  have hne := filesForest_ne_nil_path ch pc hpc
  have hgood := filesForest_good ch hch pc hpc
  have hdirbs := (goodNameB_spec dir hdir).2.2
  have hstrip : entryNameC dir (dir :: pc.1) = renderPath pc.1 :=
    entryNameC_strip dir pc.1 hdirbs
      (fun p hp => (goodNameB_spec p (hgood p hp)).2.2) hne
  rw [hstrip]

theorem zipEntries_names_nodup (dir nm : Str) (ch : List FsTree)
    (hdir : goodNameB dir = true) (hch : goodForest ch = true)
    (hnn : nodupNames ch = true) (hu : uniqForest ch = true) :
    ((zipEntries dir (FsTree.dir nm ch)).map Prod.fst).Nodup := by
  rw [zipEntries_dir_eq dir nm ch hdir hch, List.map_map]
  have hcomp : (Prod.fst ∘ fun pc : List Str × Str => (renderPath pc.1, pc.2)) =
      renderPath ∘ Prod.fst := rfl
  rw [hcomp, ← List.map_map]
  apply List.Nodup.map_on
  · intro a ha b hb hab
    rw [List.mem_map] at ha hb
    obtain ⟨pca, hpca, hea⟩ := ha
    obtain ⟨pcb, hpcb, heb⟩ := hb
    apply renderPath_inj a b ?_ ?_ hab
    · rw [← hea]
      exact fun x hx => filesForest_good ch hch pca hpca x hx
    · rw [← heb]
      exact fun x hx => filesForest_good ch hch pcb hpcb x hx
  · exact filesForest_paths_nodup ch hnn hu

theorem zipFromWalkW_eq_map (dir : Str) (wr : List Str → Str → Nat)
    (items : List WalkItem) :
    zipFromWalkW dir wr items =
      (filesOfWalk items).map
        (fun pc => (entryNameC dir pc.1, pc.2.take (wr pc.1 pc.2))) := by
  induction items with
  | nil => rfl
  | cons it ts ih =>
    cases it with
    | okFile p c =>
      simp [zipFromWalkW, filesOfWalk, List.filterMap_cons] at ih ⊢
      exact ih
    | okDir p =>
      simp [zipFromWalkW, filesOfWalk, List.filterMap_cons] at ih ⊢
      exact ih
    | err m =>
      simp [zipFromWalkW, filesOfWalk, List.filterMap_cons] at ih ⊢
      exact ih

theorem zipFromWalkW_full (dir : Str) (items : List WalkItem) :
    zipFromWalkW dir (fun _ c => c.length) items = zipFromWalk dir items := by
  induction items with
  | nil => rfl
  | cons it ts ih =>
    cases it with
    | okFile p c =>
      simp [zipFromWalkW, zipFromWalk, List.filterMap_cons, List.take_length, ih]
    | okDir p =>
      simp [zipFromWalkW, zipFromWalk, List.filterMap_cons, ih]
    | err m =>
      simp [zipFromWalkW, zipFromWalk, List.filterMap_cons, ih]

theorem zipEntriesW_eq (dir : Str) (wr : List Str → Str → Nat) (t : FsTree) :
    zipEntriesW dir wr t =
      (filesUnderRoot t).map
        (fun pc => (entryNameC dir (dir :: pc.1),
          pc.2.take (wr (dir :: pc.1) pc.2))) := by
  rw [zipEntriesW, zipFromWalkW_eq_map, filesOfWalk_walkItems_root, List.map_map]
  rfl

theorem zipEntriesW_dir_eq (dir nm : Str) (ch : List FsTree)
    (wr : List Str → Str → Nat)
    (hdir : goodNameB dir = true) (hch : goodForest ch = true) :
    zipEntriesW dir wr (FsTree.dir nm ch) =
      (filesForest ch).map
        (fun pc => (renderPath pc.1, pc.2.take (wr (dir :: pc.1) pc.2))) := by
  rw [zipEntriesW_eq]
  have h0 : filesUnderRoot (FsTree.dir nm ch) = filesForest ch := rfl
  rw [h0]
  apply List.map_congr_left
  intro pc hpc
  have hne := filesForest_ne_nil_path ch pc hpc
  have hgood := filesForest_good ch hch pc hpc
  have hdirbs := (goodNameB_spec dir hdir).2.2
  rw [entryNameC_strip dir pc.1 hdirbs
    (fun p hp => (goodNameB_spec p (hgood p hp)).2.2) hne]

theorem zipEntriesW_names_nodup (dir nm : Str) (ch : List FsTree)
    (wr : List Str → Str → Nat)
    (hdir : goodNameB dir = true) (hch : goodForest ch = true)
    (hnn : nodupNames ch = true) (hu : uniqForest ch = true) :
    ((zipEntriesW dir wr (FsTree.dir nm ch)).map Prod.fst).Nodup := by
  rw [zipEntriesW_dir_eq dir nm ch wr hdir hch, List.map_map]
  have hcomp : (Prod.fst ∘ fun pc : List Str × Str =>
      (renderPath pc.1, pc.2.take (wr (dir :: pc.1) pc.2))) =
      renderPath ∘ Prod.fst := rfl
  rw [hcomp, ← List.map_map]
  apply List.Nodup.map_on
  · intro a ha b hb hab
    rw [List.mem_map] at ha hb
    obtain ⟨pca, hpca, hea⟩ := ha
    obtain ⟨pcb, hpcb, heb⟩ := hb
    apply renderPath_inj a b ?_ ?_ hab
    · rw [← hea]
      exact fun x hx => filesForest_good ch hch pca hpca x hx
    · rw [← heb]
      exact fun x hx => filesForest_good ch hch pcb hpcb x hx
  · exact filesForest_paths_nodup ch hnn hu

/-! # Claim theorems (Archiver group) -/

/-- C1 counterexample: on a Unix host a file named `a\b` (a legal filename
containing a backslash) under the output directory `build` does not appear
at its path relative to `build`: the `replace("\\", "/")` of `zip_output`
rewrites the entry name to `a/b`.  Stated over the write-count-faithful
model at the full-write count, so the failure is in the entry path alone. -/
theorem c1_counterexample :
    (["a\\b".data], "x".data) ∈
        filesUnderRoot (FsTree.dir "build".data [FsTree.file "a\\b".data "x".data])
      ∧ (renderPath ["a\\b".data], "x".data) ∉
        zipEntriesW "build".data (fun _ c => c.length)
          (FsTree.dir "build".data [FsTree.file "a\\b".data "x".data])
      ∧ zipEntriesW "build".data (fun _ c => c.length)
          (FsTree.dir "build".data [FsTree.file "a\\b".data "x".data]) =
        [("a/b".data, "x".data)] := by
  decide

/-- C1 (amended): for every output-directory tree whose names are nonempty
and free of `/` and `\`, with distinct sibling names, and for every
write-count oracle (the count returned by the single unchecked
`zip.write(&buffer)` per file), the archive is exactly the traversal-ordered
list of regular files, each at its path relative to the output directory
joined with `/`, holding the consumed prefix of the file's bytes; entry
paths are pairwise distinct, so each file appears exactly once, and its
content equals the file's bytes exactly when the write call consumed the
whole buffer — byte-identical content is not guaranteed otherwise, since
the source discards the count instead of using `write_all`. -/
theorem c1_archive_matches_files (dir nm : Str) (ch : List FsTree)
    (wr : List Str → Str → Nat)
    (hdir : goodNameB dir = true) (hch : goodForest ch = true)
    (hnn : nodupNames ch = true) (hu : uniqForest ch = true) :
    zipEntriesW dir wr (FsTree.dir nm ch) =
        (filesForest ch).map
          (fun pc => (renderPath pc.1, pc.2.take (wr (dir :: pc.1) pc.2)))
      ∧ ((zipEntriesW dir wr (FsTree.dir nm ch)).map Prod.fst).Nodup
      ∧ (zipEntriesW dir wr (FsTree.dir nm ch)).Nodup
      ∧ (∀ p c, (p, c) ∈ filesForest ch →
          (renderPath p, c.take (wr (dir :: p) c)) ∈
              zipEntriesW dir wr (FsTree.dir nm ch)
            ∧ c.take (wr (dir :: p) c) <+: c)
      ∧ (∀ p c, (p, c) ∈ filesForest ch → c.length ≤ wr (dir :: p) c →
          (renderPath p, c) ∈ zipEntriesW dir wr (FsTree.dir nm ch)) := by
  refine ⟨zipEntriesW_dir_eq dir nm ch wr hdir hch,
    zipEntriesW_names_nodup dir nm ch wr hdir hch hnn hu,
    List.Nodup.of_map _ (zipEntriesW_names_nodup dir nm ch wr hdir hch hnn hu),
    ?_, ?_⟩
  · intro p c hpc
    constructor
    · rw [zipEntriesW_dir_eq dir nm ch wr hdir hch, List.mem_map]
      exact ⟨(p, c), hpc, rfl⟩
    · exact List.take_prefix _ _
  · intro p c hpc hlen
    rw [zipEntriesW_dir_eq dir nm ch wr hdir hch, List.mem_map]
    refine ⟨(p, c), hpc, ?_⟩
    simp [List.take_of_length_le hlen]

/-- C1 witness: the spec's own scenario with one nested directory, at the
full-write count (every write call consumes the whole buffer). -/
theorem c1_witness :
    zipEntriesW "build".data (fun _ c => c.length)
        (FsTree.dir "build".data
          [FsTree.file "index.html".data "hi".data,
            FsTree.dir "assets".data [FsTree.file "app.js".data "x".data]]) =
      (filesForest
          [FsTree.file "index.html".data "hi".data,
            FsTree.dir "assets".data [FsTree.file "app.js".data "x".data]]).map
        (fun pc => (renderPath pc.1, pc.2.take pc.2.length))
    ∧ ((zipEntriesW "build".data (fun _ c => c.length)
        (FsTree.dir "build".data
          [FsTree.file "index.html".data "hi".data,
            FsTree.dir "assets".data [FsTree.file "app.js".data "x".data]])).map
        Prod.fst).Nodup
    ∧ (renderPath ["assets".data, "app.js".data], "x".data) ∈
        zipEntriesW "build".data (fun _ c => c.length)
          (FsTree.dir "build".data
            [FsTree.file "index.html".data "hi".data,
              FsTree.dir "assets".data [FsTree.file "app.js".data "x".data]]) :=
  ⟨(c1_archive_matches_files "build".data "build".data
      [FsTree.file "index.html".data "hi".data,
        FsTree.dir "assets".data [FsTree.file "app.js".data "x".data]]
      (fun _ c => c.length)
      (by decide) (by decide) (by decide) (by decide)).1,
    (c1_archive_matches_files "build".data "build".data
      [FsTree.file "index.html".data "hi".data,
        FsTree.dir "assets".data [FsTree.file "app.js".data "x".data]]
      (fun _ c => c.length)
      (by decide) (by decide) (by decide) (by decide)).2.1,
    (c1_archive_matches_files "build".data "build".data
      [FsTree.file "index.html".data "hi".data,
        FsTree.dir "assets".data [FsTree.file "app.js".data "x".data]]
      (fun _ c => c.length)
      (by decide) (by decide) (by decide) (by decide)).2.2.2.2
      ["assets".data, "app.js".data] "x".data (by decide) (by decide)⟩

/-- C2 counterexample: with a nested directory itself named `build` inside
the output directory `build`, the written entry path `build/index.html`
still starts with the literal `build/`: the prefix is stripped only once. -/
theorem c2_counterexample :
    ("build/index.html".data, "hi".data) ∈
        zipEntries "build".data
          (FsTree.dir "build".data
            [FsTree.dir "build".data [FsTree.file "index.html".data "hi".data]])
      ∧ ("build".data ++ ['/']).isPrefixOf "build/index.html".data = true := by
  decide

/-- C2 (amended): the leading `D/` produced by relativization is always
stripped exactly once, so an entry path can start with `D/` only when the
file's path relative to `D` itself begins with a component named `D` (a
nested entry named `D`). -/
theorem c2_strip_once (dir nm : Str) (ch : List FsTree)
    (hdir : goodNameB dir = true) (hch : goodForest ch = true) :
    ∀ e ∈ zipEntries dir (FsTree.dir nm ch),
      (dir ++ ['/']).isPrefixOf e.1 = true →
        ∃ p c tl, (p, c) ∈ filesForest ch ∧ e = (renderPath p, c) ∧
          p = dir :: tl ∧ tl ≠ [] := by
  intro e he hpref
  rw [zipEntries_dir_eq dir nm ch hdir hch, List.mem_map] at he
  obtain ⟨pc, hpc, hepc⟩ := he
  subst hepc
  obtain ⟨tl, htl, htlne⟩ := renderPath_pref_head dir pc.1 hdir
    (fun x hx => filesForest_good ch hch pc hpc x hx) hpref
  exact ⟨pc.1, pc.2, tl, by simpa using hpc, rfl, htl, htlne⟩

/-- C2 witness: the nested-`build` entry traces back to a file whose
`D`-relative path begins with the component `build`. -/
theorem c2_witness :
    ∃ p c tl,
      (p, c) ∈ filesForest [FsTree.dir "build".data [FsTree.file "index.html".data "hi".data]]
        ∧ (("build/index.html".data, "hi".data) : Str × Str) = (renderPath p, c)
        ∧ p = "build".data :: tl ∧ tl ≠ [] :=
  c2_strip_once "build".data "build".data
    [FsTree.dir "build".data [FsTree.file "index.html".data "hi".data]]
    (by decide) (by decide) ("build/index.html".data, "hi".data) (by decide) (by decide)

/-- C8 counterexample: when `R/build` exists as a regular file rather than a
directory, `zip_output` does not fail: the `exists()` check passes and the
archive gets one entry named `build` with the file's bytes. -/
theorem c8_counterexample :
    zip_output (some "build".data) [FsTree.file "build".data "x".data] =
      Except.ok [("build".data, "x".data)] := rfl

/-- C8 (amended): the Archiver's checked precondition is existence, not
directoryness: when `R/D` does not exist at all it panics with
`OUTPUT DIRECTORY DOES NOT EXIST` before writing any entry, and when any
node named `D` exists it proceeds and writes that node's entries. -/
theorem c8_missing_output_dir_panics (d : Str) (root : List FsTree) :
    (findChild d root = none →
        zip_output (some d) root = Except.error "OUTPUT DIRECTORY DOES NOT EXIST".data)
      ∧ ∀ t, findChild d root = some t →
          zip_output (some d) root = Except.ok (zipEntries d t) := by
  constructor
  · intro h
    rw [zip_output, h]
  · intro t h
    rw [zip_output, h]

/-- C8 witness: an absent output directory panics; a present one archives. -/
theorem c8_witness :
    zip_output (some "build".data) [] =
        Except.error "OUTPUT DIRECTORY DOES NOT EXIST".data
      ∧ zip_output (some "build".data) [FsTree.dir "build".data []] =
        Except.ok (zipEntries "build".data (FsTree.dir "build".data [])) :=
  ⟨(c8_missing_output_dir_panics "build".data []).1 rfl,
    (c8_missing_output_dir_panics "build".data [FsTree.dir "build".data []]).2
      (FsTree.dir "build".data []) rfl⟩

/-! # Gitignore helper lemmas -/

theorem splitNl_ne_nil (s : Str) : splitNl s ≠ [] := by
  induction s with
  | nil => simp [splitNl]
  | cons c cs ih =>
    rw [splitNl]
    by_cases hc : c = '\n'
    · simp [hc]
    · rw [if_neg hc]
      cases hs : splitNl cs with
      | nil => exact absurd hs ih
      | cons a l => simp

theorem splitNl_no_nl (s : Str) : ∀ l ∈ splitNl s, '\n' ∉ l := by
  induction s with
  | nil =>
    intro l hl
    simp [splitNl] at hl
    rw [hl]
    simp
  | cons c cs ih =>
    intro l hl
    rw [splitNl] at hl
    by_cases hc : c = '\n'
    · rw [if_pos hc] at hl
      rcases List.mem_cons.mp hl with h | h
      · rw [h]; simp
      · exact ih l h
    · rw [if_neg hc] at hl
      cases hs : splitNl cs with
      | nil => exact absurd hs (splitNl_ne_nil cs)
      | cons a rest =>
        rw [hs] at hl
        rcases List.mem_cons.mp hl with h | h
        · rw [h]
          intro hmem
          rcases List.mem_cons.mp hmem with h2 | h2
          · exact hc h2.symm
          · exact ih a (by rw [hs]; simp) h2
        · exact ih l (by rw [hs]; simp [h])

theorem splitNl_append : ∀ (x t : Str), '\n' ∉ x →
    splitNl (x ++ '\n' :: t) = x :: splitNl t
  | [], t, _ => by
    rw [List.nil_append, splitNl]
    simp
  | c :: x2, t, hx => by
    rw [List.cons_append, splitNl]
    rw [List.mem_cons, not_or] at hx
    rw [if_neg (fun h => hx.1 h.symm)]
    rw [splitNl_append x2 t hx.2]

theorem splitNl_of_no_nl : ∀ (x : Str), '\n' ∉ x → splitNl x = [x]
  | [], _ => rfl
  | c :: x2, hx => by
    rw [splitNl]
    rw [List.mem_cons, not_or] at hx
    rw [if_neg (fun h => hx.1 h.symm)]
    rw [splitNl_of_no_nl x2 hx.2]

theorem rustLines_cons_line (x t : Str) (hx : '\n' ∉ x) :
    rustLines (x ++ '\n' :: t) = stripCR x :: rustLines t := by
  unfold rustLines
  rw [splitNl_append x t hx]
  obtain ⟨a, l, hs⟩ := List.exists_cons_of_ne_nil (splitNl_ne_nil t)
  rw [hs]
  simp [List.dropLast, List.getLast?_cons_cons]

theorem rustLines_single (x : Str) (hx : '\n' ∉ x) (hne : x ≠ []) :
    rustLines x = [x] := by
  unfold rustLines
  rw [splitNl_of_no_nl x hx]
  cases x with
  | nil => exact absurd rfl hne
  | cons c cs => rfl

theorem joinLines_cons (x : Str) (ys : List Str) (h : ys ≠ []) :
    joinLines (x :: ys) = x ++ '\n' :: joinLines ys := by
  cases ys with
  | nil => exact absurd rfl h
  | cons y ys2 => rfl

theorem stripCR_eq_self (l : Str) (h : l.getLast? ≠ some '\r') : stripCR l = l := by
  unfold stripCR
  rw [if_neg h]

theorem rustLines_join_append : ∀ (ls : List Str) (u : Str),
    (∀ x ∈ ls, '\n' ∉ x ∧ stripCR x = x) → '\n' ∉ u → u ≠ [] →
    rustLines (joinLines (ls ++ [u])) = ls ++ [u]
  | [], u, _, hu, hune => by
    rw [List.nil_append]
    have h1 : joinLines [u] = u := rfl
    rw [h1, rustLines_single u hu hune]
  | x :: ls2, u, hls, hu, hune => by
    have hne : ls2 ++ [u] ≠ [] := by simp
    rw [List.cons_append, joinLines_cons x (ls2 ++ [u]) hne]
    have hx := hls x (by simp)
    rw [rustLines_cons_line x _ hx.1, hx.2,
      rustLines_join_append ls2 u (fun z hz => hls z (by simp [hz])) hu hune]

theorem mem_stripCR (c : Char) (l : Str) (h : c ∈ stripCR l) : c ∈ l := by
  unfold stripCR at h
  split at h
  · exact (List.dropLast_sublist l).subset h
  · exact h

theorem mem_of_getLast?_eq (l : List Str) (a : Str) (h : l.getLast? = some a) :
    a ∈ l := by
  have h2 : a ∈ l.getLast? := by rw [Option.mem_def]; exact h
  obtain ⟨hne, heq⟩ := List.mem_getLast?_eq_getLast h2
  rw [heq]
  exact List.getLast_mem hne

theorem rustLines_no_nl (s : Str) : ∀ l ∈ rustLines s, '\n' ∉ l := by
  intro l hl
  unfold rustLines at hl
  rw [List.mem_append] at hl
  rcases hl with hl | hl
  · rw [List.mem_map] at hl
    obtain ⟨seg, hseg, hstrip⟩ := hl
    intro hc
    rw [← hstrip] at hc
    exact splitNl_no_nl s seg ((List.dropLast_sublist _).subset hseg) (mem_stripCR _ _ hc)
  · cases hg : (splitNl s).getLast? with
    | none => rw [hg] at hl; simp at hl
    | some a =>
      rw [hg] at hl
      cases a with
      | nil => simp at hl
      | cons c2 cs2 =>
        simp at hl
        rw [hl]
        exact splitNl_no_nl s _ (mem_of_getLast?_eq _ _ hg)

/-! # Claim theorems (gitignore group) -/

/-- C6 counterexample: a `.gitignore` whose single line is `a\r` (a bare
carriage return at end of file, no final newline).  The filename is absent,
so the file is rewritten, but Rust's `lines`/`join("\n")` round trip turns
the line `a\r` into `a`: the prior line is not unchanged in the rewritten
file. -/
theorem c6_counterexample :
    uploaderName ∉ rustLines "a\r".data
      ∧ rustLines "a\r".data = ["a\r".data]
      ∧ (gitignore_step "a\r".data).map rustLines = some ["a".data, uploaderName]
      ∧ (gitignore_step "a\r".data).map rustLines ≠
        some (rustLines "a\r".data ++ [uploaderName]) := by
  decide

/-- C6 (amended): when the existing `.gitignore` already has a line equal to
the config filename the file is untouched; when it does not, the rewritten
file's lines are exactly the original lines followed by one line equal to
the config filename — provided no original line ends with a carriage return
(a line with a trailing `\r` loses it in the rewrite). -/
theorem c6_gitignore_append (g : Str)
    (hcr : ∀ l ∈ rustLines g, l.getLast? ≠ some '\r') :
    (uploaderName ∈ rustLines g → gitignore_step g = none)
      ∧ (uploaderName ∉ rustLines g →
          ∃ g2, gitignore_step g = some g2 ∧
            rustLines g2 = rustLines g ++ [uploaderName]) := by
  constructor
  · intro hm
    rw [gitignore_step, if_pos hm]
  · intro hm
    rw [gitignore_step, if_neg hm]
    refine ⟨_, rfl, ?_⟩
    apply rustLines_join_append
    · intro x hx
      exact ⟨rustLines_no_nl g x hx, stripCR_eq_self x (hcr x hx)⟩
    · decide
    · decide

/-- C6 witness: a present line leaves the file untouched; a missing one
appends exactly one line. -/
theorem c6_witness :
    gitignore_step ".uploader".data = none
      ∧ ∃ g2, gitignore_step "node_modules\ndist".data = some g2 ∧
          rustLines g2 = rustLines "node_modules\ndist".data ++ [uploaderName] :=
  ⟨(c6_gitignore_append ".uploader".data (by decide)).1 (by decide),
    (c6_gitignore_append "node_modules\ndist".data (by decide)).2 (by decide)⟩
